import Mathlib

/-!
Verification of the experiment-harness behavior of the
dl-general-messaround notebooks: the variant registry, the model-size
report (compare_modelsize), the latency benchmark (compare_benchmarks)
and the training driver (train), shallowly embedded in Lean.
-/

set_option maxHeartbeats 1000000
set_option maxRecDepth 100000

namespace DLMess

/-- A tensor, abstracted to what the notebooks observe about it: its shape,
the byte size of one element (element_size) and its flattened numeric
contents. -/
structure Tensor where
  shape : List Nat
  element_size : Nat
  values : List ℚ
  deriving DecidableEq

/-- Number of elements of a tensor, as nelement() reports it. -/
def Tensor.nelement (t : Tensor) : Nat := t.shape.prod

/-- A model variant: its parameter tensors, its buffer tensors, and its
forward call, which may fail (shape mismatches and similar errors from the
underlying call propagate as exceptions). -/
structure Model where
  params : List Tensor
  buffers : List Tensor
  infer : Tensor → Except String Tensor

/-- The variant registry is the Python dict `models`; assignment
models[label] = model replaces the entry in place when the label is present
(keeping its position) and appends a new entry otherwise. -/
def register (r : List (String × Model)) (label : String) (m : Model) :
    List (String × Model) :=
  if label ∈ r.map Prod.fst then
    r.map fun p => if p.1 = label then (label, m) else p
  else
    r ++ [(label, m)]

/-- A sequence of register operations applied to the initially empty
registry, as the notebook builds `models` by successive assignments. -/
def applyOps (ops : List (String × Model)) : List (String × Model) :=
  ops.foldl (fun r q => register r q.1 q.2) []

/-- Dict lookup: the model currently bound to a label. -/
def regFind (r : List (String × Model)) (label : String) : Option Model :=
  match r with
  | [] => none
  | p :: rest => if p.1 = label then some p.2 else regFind rest label

/-- Static footprint in bytes: compare_modelsize sums
param.nelement() * param.element_size() over the parameters and the same
product over the buffers. -/
def modelSizeBytes (m : Model) : Nat :=
  (m.params.map fun p => p.nelement * p.element_size).sum
    + (m.buffers.map fun p => p.nelement * p.element_size).sum

/-- size_all_mb in compare_modelsize: total bytes divided by 1024^2. -/
def size_all_mb (m : Model) : ℚ := (modelSizeBytes m : ℚ) / 1024 ^ 2

/-- compare_modelsize prints one size line per registry entry; we record the
(label, mebibytes) pairs in print order. -/
def compare_modelsize (models : List (String × Model)) : List (String × ℚ) :=
  models.map fun p => (p.1, size_all_mb p.2)

/-- The size formula in the words of the claim: sum over all parameters of
(element count times element byte size) plus the same sum over all buffers,
divided by 1024^2.  Stated independently of compare_modelsize so the two can
be compared. -/
def sizeSpecMB (m : Model) : ℚ :=
  ((m.params.map fun p => (p.nelement : ℚ) * (p.element_size : ℚ)).sum
    + (m.buffers.map fun p => (p.nelement : ℚ) * (p.element_size : ℚ)).sum)
    / 1024 ^ 2

/-- The observable operations of one step of the train driver. -/
inductive TrainEv where
  | loadToDevice
  | projectInputs
  | zeroGrad
  | forwardPass
  | lossCompute
  | backwardPass
  | optimStep
  | accumulateLoss
  deriving DecidableEq, BEq

/-- The order in which one step of train performs its operations, read off
the body of the loop: move data to the device, build the tangent tensor and
expmap it onto the manifold (the input projection), opt.zero_grad(), the
forward pass, the criterion call, loss.backward(), opt.step(), and the
running-loss accumulation. -/
def stepEventOrder : List TrainEv :=
  [TrainEv.loadToDevice, TrainEv.projectInputs, TrainEv.zeroGrad,
   TrainEv.forwardPass, TrainEv.lossCompute, TrainEv.backwardPass,
   TrainEv.optimStep, TrainEv.accumulateLoss]

/-- State of the train driver: the running-loss accumulator and the list of
progress reports printed so far.  A report is the triple printed by
print(f"[{epoch + 1}, {i + 1:5d}] loss: {running_loss / 2000:.3f}"):
the 1-based epoch, the 1-based step index, and the reported value. -/
structure TrainState where
  runningLoss : ℚ
  reports : List (Nat × Nat × ℚ)
  deriving DecidableEq

/-- One step of the inner loop of train at epoch e, step i (0-based), where
loss e i is the scalar loss of that step: running_loss += loss.item(); if
i % 2000 == 1999 a progress line is printed and running_loss is reset to 0. -/
def trainStep (loss : Nat → Nat → ℚ) (e : Nat) (s : TrainState) (i : Nat) :
    TrainState :=
  let rl := s.runningLoss + loss e i
  if i % 2000 = 1999 then
    { runningLoss := 0, reports := s.reports ++ [(e + 1, i + 1, rl / 2000)] }
  else
    { runningLoss := rl, reports := s.reports }

/-- One epoch of train: running_loss starts at 0.0 and the n steps of the
loader are processed in order; reports printed earlier stay printed. -/
def runEpoch (loss : Nat → Nat → ℚ) (e n : Nat) (rep0 : List (Nat × Nat × ℚ)) :
    TrainState :=
  (List.range n).foldl (trainStep loss e) { runningLoss := 0, reports := rep0 }

/-- The train driver: two epochs (for epoch in range(2)) over a loader of n
steps, with loss e i the scalar loss at epoch e, step i. -/
def train (loss : Nat → Nat → ℚ) (n : Nat) : TrainState :=
  (List.range 2).foldl (fun s e => runEpoch loss e n s.reports)
    { runningLoss := 0, reports := [] }

/-- The reports one epoch of n steps produces: one entry per step i with
i % 2000 = 1999, reporting the mean over the 2000 steps ending at i. -/
def epochReports (loss : Nat → Nat → ℚ) (e n : Nat) : List (Nat × Nat × ℚ) :=
  ((List.range n).filter fun i => i % 2000 = 1999).map fun i =>
    (e + 1, i + 1, (∑ j ∈ Finset.Ico (i - 1999) (i + 1), loss e j) / 2000)

/-- The global sequence of (epoch, step) pairs of a whole run of train, in
execution order. -/
def globalSteps (n : Nat) : List (Nat × Nat) :=
  ((List.range 2).map fun e => (List.range n).map fun i => (e, i)).flatten

/-- Positions (in globalSteps) at which a progress report is printed. -/
def reportPositions (n : Nat) : List Nat :=
  ((globalSteps n).enum.filter fun q => q.2.2 % 2000 = 1999).map Prod.fst

/-- The steps "since the last report" for the k-th report, in the words of
the claim: every step after the previous report (or from the start of the
run, for the first report) up to and including the reporting step. -/
def specSegment (n k : Nat) : List (Nat × Nat) :=
  match (reportPositions n).get? k with
  | none => []
  | some p =>
    let start : Nat :=
      if k = 0 then 0
      else
        match (reportPositions n).get? (k - 1) with
        | some q => q + 1
        | none => 0
    ((globalSteps n).take (p + 1)).drop start

/-- The value the claim says the k-th report prints: the sum of the losses
of exactly the steps since the last report, divided by their count. -/
def specMeanAt (loss : Nat → Nat → ℚ) (n k : Nat) : ℚ :=
  ((specSegment n k).map fun q => loss q.1 q.2).sum
    / ((specSegment n k).length : ℚ)

/-- The random input of batch b in compare_benchmarks:
torch.randn(batch_size, channels, *input_size) drawn from the generator
stream g fixed by torch.manual_seed(0) at the top of the function.  The
b-th batch consumes the next block of the stream; float32 elements are 4
bytes. -/
def genInput (g : Nat → ℚ) (bs ch h w : Nat) (b : Nat) : Tensor :=
  { shape := [bs, ch, h, w]
    element_size := 4
    values := (List.range (bs * ch * h * w)).map fun k =>
      g (b * (bs * ch * h * w) + k) }

/-- The metadata of one timing result appended to results in
compare_benchmarks: benchmark.Timer(label, sub_label, description=modelname,
num_threads=1). -/
structure TimerRecord where
  label : String
  sub_label : String
  description : String
  num_threads : Nat
  deriving DecidableEq, BEq

/-- The record compare_benchmarks appends for one (batch, variant) timing. -/
def mkRecord (modelname : String) : TimerRecord :=
  { label := "Model comparison", sub_label := "Inference"
    description := modelname, num_threads := 1 }

/-- The inner loop of compare_benchmarks over the registry entries for one
batch input x: time each model on x (an exception from the forward call
propagates and aborts everything), appending one record per model. -/
def benchLoop (ms : List (String × Model)) (x : Tensor)
    (acc : List TimerRecord) : Except String (List TimerRecord) :=
  match ms with
  | [] => Except.ok acc
  | (modelname, m) :: rest =>
    match m.infer x with
    | Except.error err => Except.error err
    | Except.ok _ => benchLoop rest x (acc ++ [mkRecord modelname])

/-- The outer loop of compare_benchmarks: k remaining batches starting at
batch index b; each batch draws one fresh input tensor and times every
registered model on it. -/
def benchFrom (g : Nat → ℚ) (ms : List (String × Model)) (bs ch h w : Nat) :
    Nat → Nat → List TimerRecord → Except String (List TimerRecord)
  | _, 0, acc => Except.ok acc
  | b, k + 1, acc =>
    match benchLoop ms (genInput g bs ch h w b) acc with
    | Except.error err => Except.error err
    | Except.ok acc2 => benchFrom g ms bs ch h w (b + 1) k acc2

/-- compare_benchmarks: torch.manual_seed(0) fixes the generator stream g,
then for every batch index a fresh input is drawn and every variant is
timed on it; the collected records feed benchmark.Compare.  Any exception
aborts the whole comparison before anything is printed. -/
def compare_benchmarks (g : Nat → ℚ) (ms : List (String × Model))
    (batches bs ch h w : Nat) : Except String (List TimerRecord) :=
  benchFrom g ms bs ch h w 0 batches []

/-- The records a fully successful run collects for k batches: one record
per registered label, repeated once per batch, in loop order. -/
def rawRecords (labels : List String) : Nat → List TimerRecord
  | 0 => []
  | k + 1 => labels.map mkRecord ++ rawRecords labels k

/-- First-occurrence deduplication: the distinct elements of a list in order
of first appearance. -/
def firstDedup : List String → List String
  | [] => []
  | a :: as => a :: firstDedup (as.filter fun b => b ≠ a)
termination_by l => l.length
decreasing_by
  simp only [List.length_cons]
  exact Nat.lt_succ_of_le (List.length_filter_le _ _)

/-- benchmark.Compare merges measurements sharing the same
(label, sub_label, description, num_threads) key into one cell of the
printed table; with a fixed label, sub-label and thread count the printed
latency rows are identified by their description, one per distinct
description in order of first appearance (as the notebook's stored output
shows: one latency column per variant). -/
def mergedLabels (recs : List TimerRecord) : List String :=
  firstDedup (recs.map TimerRecord.description)

/-- The (batch index, variant label, input tensor) triples timed by
compare_benchmarks: the input x is drawn once per batch, before the loop
over the registry, and passed to the Timer of every variant. -/
def timedCalls (g : Nat → ℚ) (ms : List (String × Model))
    (batches bs ch h w : Nat) : List (Nat × String × Tensor) :=
  ((List.range batches).map fun b =>
    ms.map fun p => (b, p.1, genInput g bs ch h w b)).flatten

/-- The externally visible RNG-relevant events of compare_benchmarks, in
program order: the single torch.manual_seed(0) call at the top, then per
batch one input generation followed by one timing per variant. -/
inductive BenchEv where
  | seedSet (seed : Nat)
  | genBatch (b : Nat)
  | timeModel (b : Nat) (modelname : String)
  deriving DecidableEq, BEq

/-- Whether an event is a seed-setting event. -/
def BenchEv.isSeed : BenchEv → Bool
  | BenchEv.seedSet _ => true
  | _ => false

/-- The event trace of compare_benchmarks. -/
def benchEvents (ms : List (String × Model)) (batches : Nat) : List BenchEv :=
  BenchEv.seedSet 0 ::
    ((List.range batches).map fun b =>
      BenchEv.genBatch b :: ms.map fun p => BenchEv.timeModel b p.1).flatten

/-- Whether an Except value is a success. -/
def exceptOk : Except String Tensor → Bool
  | Except.ok _ => true
  | Except.error _ => false

/-- Modelled from the spec and the notebook's own documentation: the code
of torch.nn.utils.prune is third-party and not under src/; the notebook
states that built-in pruning (prune.random_unstructured or
prune.random_structured followed by prune.remove) "still just zeros
parameters, and doesn't actually remove the zeroed dimensions".  So
pruning a weight tensor zeroes the masked entries in place, leaving shape,
element count and element byte size untouched. -/
def pruneTensor (mask : Nat → Bool) (t : Tensor) : Tensor :=
  { t with values := t.values.enum.map fun q => if mask q.1 then 0 else q.2 }

/-- The pruning pass of the notebook: every Conv2d weight (selected by the
cw predicate over parameter positions) is pruned-and-removed with its own
random mask; all other parameters and all buffers are untouched. -/
def pruneModelWeights (cw : Nat → Bool) (mask : Nat → Nat → Bool)
    (m : Model) : Model :=
  { m with params := m.params.enum.map fun q =>
      if cw q.1 then pruneTensor (mask q.1) q.2 else q.2 }

/-- A generator stream used by the concrete witnesses. -/
def g0 : Nat → ℚ := fun _ => 0

/-- A model whose forward call always succeeds, for concrete witnesses. -/
def okModel : Model :=
  { params := [{ shape := [2, 3], element_size := 4, values := [1, 2, 3, 4, 5, 6] }]
    buffers := [{ shape := [2], element_size := 4, values := [0, 0] }]
    infer := fun x => Except.ok x }

/-- A model whose forward call always fails, for concrete witnesses. -/
def badModel : Model :=
  { params := []
    buffers := []
    infer := fun _ => Except.error "boom" }

/-- A two-variant registry for concrete witnesses. -/
def demoModels : List (String × Model) := [("a", okModel), ("b", okModel)]

/-- A loss sequence that is identically zero, for concrete witnesses. -/
def demoLoss : Nat → Nat → ℚ := fun _ _ => 0

/-- A loss sequence that is zero except at epoch 0, step 2000, used to
exhibit the epoch-boundary behavior of the progress reports. -/
def clLoss : Nat → Nat → ℚ := fun e i => if e = 0 ∧ i = 2000 then 2001 else 0

/-! ## Theorems -/

/-- C2 counterexample: in the step body of train, the inputs are projected
onto the manifold (TangentTensor + expmap) before opt.zero_grad() is
called, so the claimed order — clear accumulated gradients first, then
project the inputs — does not hold. -/
theorem train_step_order_claim_false :
    ¬ (stepEventOrder.indexOf TrainEv.zeroGrad
        < stepEventOrder.indexOf TrainEv.projectInputs) := by
  decide

/-- C2 (amended): for every step of the training driver, the operations
occur in this order: project the inputs, then clear accumulated gradients,
then compute the model output, then compute a scalar loss against the
labels, then propagate gradients, then apply one optimizer step, then
accumulate the running loss. -/
theorem train_step_order :
    stepEventOrder.indexOf TrainEv.projectInputs
        < stepEventOrder.indexOf TrainEv.zeroGrad
    ∧ stepEventOrder.indexOf TrainEv.zeroGrad
        < stepEventOrder.indexOf TrainEv.forwardPass
    ∧ stepEventOrder.indexOf TrainEv.forwardPass
        < stepEventOrder.indexOf TrainEv.lossCompute
    ∧ stepEventOrder.indexOf TrainEv.lossCompute
        < stepEventOrder.indexOf TrainEv.backwardPass
    ∧ stepEventOrder.indexOf TrainEv.backwardPass
        < stepEventOrder.indexOf TrainEv.optimStep
    ∧ stepEventOrder.indexOf TrainEv.optimStep
        < stepEventOrder.indexOf TrainEv.accumulateLoss := by
  decide

/-- Replacing the entry of a present label keeps every key in place. -/
lemma regKeys_replace (r : List (String × Model)) (label : String) (m : Model) :
    (r.map fun p => if p.1 = label then (label, m) else p).map Prod.fst
      = r.map Prod.fst := by
  induction r with
  | nil => rfl
  | cons a t ih =>
    simp only [List.map_cons, ih]
    by_cases h : a.1 = label
    · simp [h]
    · simp [h]

/-- The keys of a registry after register: unchanged when the label was
present, appended at the end when it was new. -/
lemma regKeys_register (r : List (String × Model)) (label : String) (m : Model) :
    (register r label m).map Prod.fst
      = if label ∈ r.map Prod.fst then r.map Prod.fst
        else r.map Prod.fst ++ [label] := by
  unfold register
  by_cases h : label ∈ r.map Prod.fst
  · simp only [h, if_true, regKeys_replace]
  · simp [h]

/-- register preserves key uniqueness. -/
lemma regKeys_register_nodup (r : List (String × Model)) (label : String)
    (m : Model) (h : (r.map Prod.fst).Nodup) :
    ((register r label m).map Prod.fst).Nodup := by
  rw [regKeys_register]
  by_cases hmem : label ∈ r.map Prod.fst
  · simpa [hmem] using h
  · simp only [hmem, if_false]
    rw [List.nodup_append]
    refine ⟨h, List.nodup_singleton _, ?_⟩
    intro a ha hb
    simp only [List.mem_singleton] at hb
    exact hmem (hb ▸ ha)

/-- Any registry built by register operations from an empty start has
pairwise-distinct labels. -/
lemma applyOps_keys_nodup (ops : List (String × Model)) :
    ((applyOps ops).map Prod.fst).Nodup := by
  suffices h : ∀ r : List (String × Model), (r.map Prod.fst).Nodup →
      ((ops.foldl (fun r q => register r q.1 q.2) r).map Prod.fst).Nodup by
    exact h [] (by simp)
  induction ops with
  | nil => intro r hr; simpa using hr
  | cons a t ih =>
    intro r hr
    exact ih _ (regKeys_register_nodup r a.1 a.2 hr)

/-- After registering a label, looking it up finds the new model. -/
lemma regFind_register (r : List (String × Model)) (label : String) (m : Model) :
    regFind (register r label m) label = some m := by
  unfold register
  by_cases hmem : label ∈ r.map Prod.fst
  · simp only [hmem, if_true]
    induction r with
    | nil => simp at hmem
    | cons a t ih =>
      by_cases h : a.1 = label
      · simp [regFind, h]
      · simp only [List.map_cons, List.mem_cons] at hmem
        rcases hmem with h1 | h2
        · exact absurd h1.symm h
        · simpa [regFind, h] using ih h2
  · simp only [hmem, if_false]
    induction r with
    | nil => simp [regFind]
    | cons a t ih =>
      simp only [List.map_cons, List.mem_cons, not_or] at hmem
      have h : ¬ a.1 = label := fun hh => hmem.1 hh.symm
      simpa [regFind, h] using ih hmem.2

/-- C5: in a registry built by register operations from the empty dict,
each label occurs at most once; iteration order is insertion order:
registering a new label appends it at the end while registering a present
label leaves every key (hence every position) unchanged; and registering a
label makes lookup return the newly bound model, without duplicating the
entry. -/
theorem registry_nodup_order_replace (ops : List (String × Model))
    (label : String) (m : Model) :
    ((applyOps ops).map Prod.fst).Nodup
    ∧ (register (applyOps ops) label m).map Prod.fst
        = (if label ∈ (applyOps ops).map Prod.fst
            then (applyOps ops).map Prod.fst
            else (applyOps ops).map Prod.fst ++ [label])
    ∧ regFind (register (applyOps ops) label m) label = some m
    ∧ (register (applyOps ops) label m).length
        = (if label ∈ (applyOps ops).map Prod.fst
            then (applyOps ops).length
            else (applyOps ops).length + 1) := by
  refine ⟨applyOps_keys_nodup ops, regKeys_register _ _ _,
    regFind_register _ _ _, ?_⟩
  have h := congrArg List.length (regKeys_register (applyOps ops) label m)
  simp only [List.length_map] at h
  by_cases hmem : label ∈ (applyOps ops).map Prod.fst
  · simpa [hmem] using h
  · simpa [hmem] using h

/-- Sums of per-tensor byte counts commute with the cast to ℚ. -/
lemma sum_sizes_cast (l : List Tensor) :
    (((l.map fun p => p.nelement * p.element_size).sum : Nat) : ℚ)
      = (l.map fun p => (p.nelement : ℚ) * (p.element_size : ℚ)).sum := by
  induction l with
  | nil => simp
  | cons a t ih => simp [ih]

/-- The two size formulas agree on every model. -/
lemma size_all_mb_eq_spec (m : Model) : size_all_mb m = sizeSpecMB m := by
  unfold size_all_mb sizeSpecMB modelSizeBytes
  rw [Nat.cast_add, sum_sizes_cast, sum_sizes_cast]

/-- C7: for every model, the size compare_modelsize reports equals the sum
over all parameters of (element count times element byte size) plus the
same sum over all buffers, divided by 1024^2; and exactly one size line is
printed per registry entry, carrying that variant's label. -/
theorem compare_modelsize_formula (ms : List (String × Model)) :
    compare_modelsize ms = ms.map (fun p => (p.1, sizeSpecMB p.2))
    ∧ (compare_modelsize ms).length = ms.length
    ∧ (compare_modelsize ms).map Prod.fst = ms.map Prod.fst := by
  refine ⟨?_, by simp [compare_modelsize], by simp [compare_modelsize]⟩
  unfold compare_modelsize
  exact List.map_congr_left fun p _ => by rw [size_all_mb_eq_spec]

/-- Unfolding one more step of an epoch. -/
lemma runEpoch_succ (loss : Nat → Nat → ℚ) (e n : Nat)
    (rep0 : List (Nat × Nat × ℚ)) :
    runEpoch loss e (n + 1) rep0
      = trainStep loss e (runEpoch loss e n rep0) n := by
  unfold runEpoch
  rw [List.range_succ, List.foldl_append]
  rfl

/-- Unfolding one more step of epochReports. -/
lemma epochReports_succ (loss : Nat → Nat → ℚ) (e n : Nat) :
    epochReports loss e (n + 1)
      = epochReports loss e n ++
          (if n % 2000 = 1999 then
            [(e + 1, n + 1, (∑ j ∈ Finset.Ico (n - 1999) (n + 1), loss e j) / 2000)]
          else []) := by
  unfold epochReports
  rw [List.range_succ, List.filter_append, List.map_append]
  by_cases h : n % 2000 = 1999
  · simp [h]
  · simp [h]

/-- The loop invariant of one epoch of train: the accumulator holds the sum
of the losses since the last reset (the last full multiple of 2000 steps),
and the reports are the initial ones followed by this epoch's reports. -/
lemma runEpoch_spec (loss : Nat → Nat → ℚ) (e : Nat)
    (rep0 : List (Nat × Nat × ℚ)) (n : Nat) :
    (runEpoch loss e n rep0).runningLoss
        = ∑ j ∈ Finset.Ico (2000 * (n / 2000)) n, loss e j
    ∧ (runEpoch loss e n rep0).reports = rep0 ++ epochReports loss e n := by
  induction n with
  | zero =>
    refine ⟨by simp [runEpoch], by simp [runEpoch, epochReports]⟩
  | succ n ih =>
    obtain ⟨ih1, ih2⟩ := ih
    rw [runEpoch_succ, epochReports_succ]
    by_cases h : n % 2000 = 1999
    · have hb : 2000 * ((n + 1) / 2000) = n + 1 := by omega
      have ha : 2000 * (n / 2000) = n - 1999 := by omega
      have hle : n - 1999 ≤ n := by omega
      constructor
      · simp [trainStep, h, hb]
      · simp only [trainStep, h, if_true, ih2, ih1, ha]
        rw [List.append_assoc, Finset.sum_Ico_succ_top hle]
    · have hb : 2000 * ((n + 1) / 2000) = 2000 * (n / 2000) := by omega
      have hle : 2000 * (n / 2000) ≤ n := by omega
      constructor
      · simp only [trainStep, h, if_false, ih1, hb]
        rw [Finset.sum_Ico_succ_top hle]
      · simp [trainStep, h, ih2]

/-- The reports of a whole run of train: those of epoch 0 followed by those
of epoch 1. -/
lemma train_reports (loss : Nat → Nat → ℚ) (n : Nat) :
    (train loss n).reports = epochReports loss 0 n ++ epochReports loss 1 n := by
  have ht : train loss n
      = runEpoch loss 1 n ((runEpoch loss 0 n []).reports) := rfl
  rw [ht, (runEpoch_spec loss 1 _ n).2, (runEpoch_spec loss 0 [] n).2]
  simp

/-- Characterization of membership in one epoch's reports. -/
lemma mem_epochReports (loss : Nat → Nat → ℚ) (e n : Nat)
    (r : Nat × Nat × ℚ) :
    r ∈ epochReports loss e n ↔ ∃ i, i < n ∧ i % 2000 = 1999 ∧
      r = (e + 1, i + 1, (∑ j ∈ Finset.Ico (i - 1999) (i + 1), loss e j) / 2000) := by
  unfold epochReports
  simp only [List.mem_map, List.mem_filter, List.mem_range, decide_eq_true_eq]
  constructor
  · rintro ⟨i, ⟨h1, h2⟩, h3⟩
    exact ⟨i, h1, h2, h3.symm⟩
  · rintro ⟨i, h1, h2, h3⟩
    exact ⟨i, ⟨h1, h2⟩, h3.symm⟩

/-- C3: every progress report of train reports at a step index (the printed,
1-based index i + 1) that is an exact multiple of the report interval 2000;
the step that prints a report leaves the loss accumulator at zero
immediately afterwards; and a step whose index is not a report step prints
nothing. -/
theorem train_report_multiples_and_reset (loss : Nat → Nat → ℚ) (n : Nat) :
    (∀ r ∈ (train loss n).reports, r.2.1 % 2000 = 0)
    ∧ (∀ e i s, i % 2000 = 1999 → (trainStep loss e s i).runningLoss = 0)
    ∧ (∀ e i s, ¬ i % 2000 = 1999 → (trainStep loss e s i).reports = s.reports) := by
  refine ⟨?_, ?_, ?_⟩
  · intro r hr
    rw [train_reports, List.mem_append] at hr
    rcases hr with h | h
    · rcases (mem_epochReports loss 0 n r).1 h with ⟨i, _, h2, h3⟩
      rw [h3]
      simp only []
      omega
    · rcases (mem_epochReports loss 1 n r).1 h with ⟨i, _, h2, h3⟩
      rw [h3]
      simp only []
      omega
  · intro e i s h
    simp [trainStep, h]
  · intro e i s h
    simp [trainStep, h]

/-- The report list of one zero-loss epoch of 2000 steps. -/
lemma epochReports_demo (e : Nat) :
    epochReports demoLoss e 2000 = [(e + 1, 2000, 0)] := by
  unfold epochReports
  have hf : (List.range 2000).filter (fun i => decide (i % 2000 = 1999))
      = [1999] := by decide
  rw [hf]
  simp [demoLoss]

/-- The reports of the zero-loss run used as concrete witness. -/
lemma train_demo_reports :
    (train demoLoss 2000).reports = [(1, 2000, 0), (2, 2000, 0)] := by
  rw [train_reports, epochReports_demo 0, epochReports_demo 1]
  rfl

/-- C3 witness: a run of 2000 constant-zero-loss steps per epoch reports at
printed step 2000, a multiple of 2000; a step with index i = 1999 resets
the accumulator to zero; a step with index 5 prints nothing. -/
theorem train_report_multiples_and_reset_witness :
    ((1, 2000, (0 : ℚ)) ∈ (train demoLoss 2000).reports
      ∧ ((1, 2000, (0 : ℚ)) : Nat × Nat × ℚ).2.1 % 2000 = 0)
    ∧ ((1999 : Nat) % 2000 = 1999
      ∧ (trainStep demoLoss 0 { runningLoss := 5, reports := [] } 1999).runningLoss = 0)
    ∧ (¬ (5 : Nat) % 2000 = 1999
      ∧ (trainStep demoLoss 0 { runningLoss := 5, reports := [] } 5).reports
          = ({ runningLoss := 5, reports := [] } : TrainState).reports) := by
  have hm : (1, 2000, (0 : ℚ)) ∈ (train demoLoss 2000).reports := by
    rw [train_demo_reports]
    simp
  exact ⟨⟨hm, (train_report_multiples_and_reset demoLoss 2000).1 _ hm⟩,
    ⟨by decide,
      (train_report_multiples_and_reset demoLoss 2000).2.1 0 1999 _ (by decide)⟩,
    ⟨by decide,
      (train_report_multiples_and_reset demoLoss 2000).2.2 0 5 _ (by decide)⟩⟩

/-- In epoch 0 of the boundary scenario, the only report is at printed step
2000 and its value is 0 (the loss spike sits at step 2000, after it). -/
lemma epochReports_cl_zero : epochReports clLoss 0 2001 = [(1, 2000, 0)] := by
  unfold epochReports
  have hf : (List.range 2001).filter (fun i => decide (i % 2000 = 1999))
      = [1999] := by decide
  rw [hf]
  have hs : (∑ j ∈ Finset.range 2000, clLoss 0 j) = 0 := by
    apply Finset.sum_eq_zero
    intro j hj
    simp only [Finset.mem_range] at hj
    have hj2 : ¬ j = 2000 := by omega
    simp [clLoss, hj2]
  simp [hs]

/-- In epoch 1 of the boundary scenario, the only report is at printed step
2000 and its value is 0 (every loss of epoch 1 is zero). -/
lemma epochReports_cl_one : epochReports clLoss 1 2001 = [(2, 2000, 0)] := by
  unfold epochReports
  have hf : (List.range 2001).filter (fun i => decide (i % 2000 = 1999))
      = [1999] := by decide
  rw [hf]
  have hs : (∑ j ∈ Finset.range 2000, clLoss 1 j) = 0 := by
    apply Finset.sum_eq_zero
    intro j _
    simp [clLoss]
  simp [hs]

/-- The full report list of the boundary scenario. -/
lemma train_cl_reports :
    (train clLoss 2001).reports = [(1, 2000, 0), (2, 2000, 0)] := by
  rw [train_reports, epochReports_cl_zero, epochReports_cl_one]
  rfl

/-- The global step list is epoch 0's steps followed by epoch 1's steps. -/
lemma globalSteps_split (n : Nat) :
    globalSteps n = ((List.range n).map fun i => ((0 : Nat), i))
      ++ (List.range n).map fun i => ((1 : Nat), i) := by
  simp [globalSteps, List.range_succ]

/-- The two reporting positions of the boundary scenario: step 1999 of
epoch 0 (global position 1999) and step 1999 of epoch 1 (global position
4000). -/
lemma reportPositions_cl : reportPositions 2001 = [1999, 4000] := by
  unfold reportPositions
  rw [globalSteps_split, List.enum_append, List.filter_append, List.map_append]
  have h1 : ((((List.range 2001).map fun i => ((0 : Nat), i)).enum).filter
      (fun q => decide (q.2.2 % 2000 = 1999))).map Prod.fst = [1999] := by decide
  have h2 : ((((List.range 2001).map fun i => ((1 : Nat), i)).enumFrom
        (((List.range 2001).map fun i => ((0 : Nat), i)).length)).filter
      (fun q => decide (q.2.2 % 2000 = 1999))).map Prod.fst = [4000] := by
    have hl : (((List.range 2001).map fun i => ((0 : Nat), i)).length) = 2001 := by
      simp
    rw [hl]
    decide
  rw [h1, h2]
  rfl

/-- The steps since the last report, for the second report of the boundary
scenario: epoch 0's step 2000 followed by epoch 1's steps 0..1999. -/
lemma specSegment_cl :
    specSegment 2001 1 = (0, 2000) :: (List.range 2000).map (fun i => (1, i)) := by
  have h0 : specSegment 2001 1 = ((globalSteps 2001).take 4001).drop 2000 := by
    unfold specSegment
    rw [reportPositions_cl]
    rfl
  rw [h0, globalSteps_split, List.take_append_eq_append_take]
  have hlen : (((List.range 2001).map fun i => ((0 : Nat), i)).length) = 2001 := by
    simp
  rw [List.take_of_length_le (by rw [hlen]; omega), hlen]
  rw [List.drop_append_eq_append_drop, hlen]
  have hdropA : (((List.range 2001).map fun i => ((0 : Nat), i)).drop 2000)
      = [((0 : Nat), (2000 : Nat))] := by
    rw [← List.map_drop]
    have : (List.range 2001).drop 2000 = [2000] := by decide
    rw [this]
    rfl
  have htakeB : (((List.range 2001).map fun i => ((1 : Nat), i)).take (4001 - 2001))
      = (List.range 2000).map fun i => ((1 : Nat), i) := by
    rw [← List.map_take]
    have : (List.range 2001).take (4001 - 2001) = List.range 2000 := by
      rw [List.take_range]
      rfl
    rw [this]
  rw [hdropA, htakeB]
  have h20 : (2000 - 2001 : Nat) = 0 := by omega
  rw [h20, List.drop_zero]
  rfl

/-- The losses of epoch 1's steps in the boundary scenario sum to zero. -/
lemma specMeanAt_cl_tail : (List.map (fun q => clLoss q.1 q.2)
    (List.map (fun i => ((1 : Nat), i)) (List.range 2000))).sum = 0 := by
  apply List.sum_eq_zero
  intro x hx
  simp only [List.mem_map, List.mem_range] at hx
  obtain ⟨q, ⟨i, _, rfl⟩, rfl⟩ := hx
  simp [clLoss]

/-- The losses of the steps since the last report, at the second report of
the boundary scenario, sum to 2001 (the whole sum is the loss spike). -/
lemma specMeanAt_cl_sum : (List.map (fun q => clLoss q.1 q.2)
    ((((0 : Nat), (2000 : Nat)) :: (List.range 2000).map fun i => ((1 : Nat), i)))).sum
    = 2001 := by
  rw [List.map_cons, List.sum_cons, specMeanAt_cl_tail]
  norm_num [clLoss]

/-- There are 2001 steps since the last report at the second report of the
boundary scenario. -/
lemma specMeanAt_cl_len :
    ((((0 : Nat), (2000 : Nat)) :: (List.range 2000).map fun i => ((1 : Nat), i))).length
    = 2001 := by
  rw [List.length_cons, List.length_map, List.length_range]

/-- The claim's mean since the last report, at the second report of the
boundary scenario, equals 1. -/
lemma specMeanAt_cl : specMeanAt clLoss 2001 1 = 1 := by
  unfold specMeanAt
  rw [specSegment_cl, specMeanAt_cl_sum, specMeanAt_cl_len]
  norm_num

/-- C6 counterexample: with 2001 steps per epoch and losses that are zero
except for a loss of 2001 at epoch 0, step 2000, the second report of the
run (at epoch 2, printed step 2000) prints 0, while the mean of the losses
of the steps since the previous report — which include epoch 0's step 2000,
dropped when the accumulator restarted at the epoch boundary — is 1.  The
printed value is not the mean of the losses since the last report. -/
theorem train_report_mean_claim_false :
    (train clLoss 2001).reports.get? 1 = some (2, 2000, 0)
    ∧ specMeanAt clLoss 2001 1 = 1
    ∧ ((0 : ℚ) ≠ 1) := by
  refine ⟨?_, specMeanAt_cl, by norm_num⟩
  rw [train_cl_reports]
  rfl

/-- C6 (amended): every progress report of train, at epoch e + 1 and
printed step i + 1, reports the mean of the losses of the 2000 steps of
that same epoch ending at step i — the sum over steps i - 1999 .. i of the
current epoch divided by 2000.  Steps of an earlier epoch that came after
its last report are dropped when the accumulator restarts at the epoch
boundary and are excluded from every report. -/
theorem train_report_mean_within_epoch (loss : Nat → Nat → ℚ) (n : Nat) :
    ∀ r ∈ (train loss n).reports, ∃ e i, e < 2 ∧ i < n ∧ i % 2000 = 1999 ∧
      r = (e + 1, i + 1, (∑ j ∈ Finset.Ico (i - 1999) (i + 1), loss e j) / 2000) := by
  intro r hr
  rw [train_reports, List.mem_append] at hr
  rcases hr with h | h
  · rcases (mem_epochReports loss 0 n r).1 h with ⟨i, h1, h2, h3⟩
    exact ⟨0, i, by omega, h1, h2, h3⟩
  · rcases (mem_epochReports loss 1 n r).1 h with ⟨i, h1, h2, h3⟩
    exact ⟨1, i, by omega, h1, h2, h3⟩

/-- C6 witness: the first report of a zero-loss run of 2000 steps per epoch
is the report of epoch 1 at printed step 2000 with value 0, the mean of the
2000 zero losses of steps 0..1999 of epoch 0. -/
theorem train_report_mean_within_epoch_witness :
    (1, 2000, (0 : ℚ)) ∈ (train demoLoss 2000).reports
    ∧ ∃ e i, e < 2 ∧ i < 2000 ∧ i % 2000 = 1999 ∧
        ((1, 2000, (0 : ℚ)) : Nat × Nat × ℚ)
          = (e + 1, i + 1, (∑ j ∈ Finset.Ico (i - 1999) (i + 1), demoLoss e j) / 2000) := by
  have hm : (1, 2000, (0 : ℚ)) ∈ (train demoLoss 2000).reports := by
    rw [train_demo_reports]
    simp
  exact ⟨hm, train_report_mean_within_epoch demoLoss 2000 _ hm⟩

/-- firstDedup of a duplicate-free list is the list itself. -/
lemma firstDedup_eq_self : ∀ (l : List String), l.Nodup → firstDedup l = l := by
  intro l h
  induction l with
  | nil => rw [firstDedup]
  | cons a as ih =>
    rw [firstDedup]
    have hfilter : (as.filter fun b => b ≠ a) = as := by
      apply List.filter_eq_self.mpr
      intro b hb
      simp only [decide_eq_true_eq]
      exact fun hba => (List.nodup_cons.mp h).1 (hba ▸ hb)
    rw [hfilter, ih (List.nodup_cons.mp h).2]

/-- Appending elements already present does not change firstDedup
(bounded-length form for the induction). -/
lemma firstDedup_append_aux : ∀ (N : Nat) (l rest : List String),
    l.length ≤ N → (∀ x ∈ rest, x ∈ l) →
    firstDedup (l ++ rest) = firstDedup l := by
  intro N
  induction N with
  | zero =>
    intro l rest hlen hsub
    have hl : l = [] := List.eq_nil_of_length_eq_zero (Nat.le_zero.mp hlen)
    subst hl
    cases rest with
    | nil => rfl
    | cons a t => exact absurd (hsub a (by simp)) (by simp)
  | succ N ih =>
    intro l rest hlen hsub
    cases l with
    | nil =>
      cases rest with
      | nil => rfl
      | cons a t => exact absurd (hsub a (by simp)) (by simp)
    | cons a as =>
      rw [List.cons_append, firstDedup, firstDedup, List.filter_append]
      congr 1
      apply ih
      · calc ((as.filter fun b => b ≠ a)).length
            ≤ as.length := List.length_filter_le _ _
          _ ≤ N := Nat.succ_le_succ_iff.mp (by simpa using hlen)
      · intro x hx
        rw [List.mem_filter] at hx ⊢
        obtain ⟨hx1, hx2⟩ := hx
        refine ⟨?_, hx2⟩
        have hxl := hsub x hx1
        simp only [List.mem_cons] at hxl
        rcases hxl with h | h
        · exact absurd h (by simpa using hx2)
        · exact h

/-- Appending elements already present does not change firstDedup. -/
lemma firstDedup_append (l rest : List String) (hsub : ∀ x ∈ rest, x ∈ l) :
    firstDedup (l ++ rest) = firstDedup l :=
  firstDedup_append_aux l.length l rest (le_refl _) hsub

/-- What a successful inner benchmark loop appends: one record per model. -/
lemma benchLoop_ok (x : Tensor) : ∀ (ms : List (String × Model))
    (acc acc2 : List TimerRecord),
    benchLoop ms x acc = Except.ok acc2 →
    acc2 = acc ++ ms.map (fun p => mkRecord p.1) := by
  intro ms
  induction ms with
  | nil =>
    intro acc acc2 h
    rw [benchLoop] at h
    cases h
    simp
  | cons p rest ih =>
    intro acc acc2 h
    obtain ⟨name, m⟩ := p
    cases hinf : m.infer x with
    | error e => rw [benchLoop, hinf] at h; cases h
    | ok y =>
      rw [benchLoop, hinf] at h
      have h2 := ih (acc ++ [mkRecord name]) acc2 h
      rw [h2]
      simp

/-- What a fully successful outer benchmark loop collects. -/
lemma benchFrom_ok (g : Nat → ℚ) (ms : List (String × Model))
    (bs ch h w : Nat) : ∀ (k b : Nat) (acc recs : List TimerRecord),
    benchFrom g ms bs ch h w b k acc = Except.ok recs →
    recs = acc ++ rawRecords (ms.map Prod.fst) k := by
  intro k
  induction k with
  | zero =>
    intro b acc recs hh
    rw [benchFrom] at hh
    cases hh
    simp [rawRecords]
  | succ k ih =>
    intro b acc recs hh
    rw [benchFrom] at hh
    cases hbl : benchLoop ms (genInput g bs ch h w b) acc with
    | error e => rw [hbl] at hh; cases hh
    | ok acc2 =>
      rw [hbl] at hh
      have h2 := ih (b + 1) acc2 recs hh
      have h3 := benchLoop_ok _ ms acc acc2 hbl
      rw [h2, h3, rawRecords]
      simp [List.map_map, Function.comp]

/-- The records of a successful compare_benchmarks run. -/
lemma compare_benchmarks_ok (g : Nat → ℚ) (ms : List (String × Model))
    (batches bs ch h w : Nat) (recs : List TimerRecord)
    (hok : compare_benchmarks g ms batches bs ch h w = Except.ok recs) :
    recs = rawRecords (ms.map Prod.fst) batches := by
  have h := benchFrom_ok g ms bs ch h w batches 0 [] recs hok
  simpa using h

/-- Every description of a raw record is a registered label. -/
lemma rawRecords_desc_mem (labels : List String) : ∀ (k : Nat) (x : String),
    x ∈ (rawRecords labels k).map TimerRecord.description → x ∈ labels := by
  intro k
  induction k with
  | zero => intro x hx; simp [rawRecords] at hx
  | succ k ih =>
    intro x hx
    rw [rawRecords, List.map_append, List.mem_append] at hx
    rcases hx with hx | hx
    · simp only [List.map_map, List.mem_map, Function.comp] at hx
      obtain ⟨s, hs, rfl⟩ := hx
      exact hs
    · exact ih x hx

/-- The descriptions collected for one more batch. -/
lemma rawRecords_desc_succ (labels : List String) (k : Nat) :
    (rawRecords labels (k + 1)).map TimerRecord.description
      = labels ++ (rawRecords labels k).map TimerRecord.description := by
  rw [rawRecords, List.map_append, List.map_map]
  have hcomp : (TimerRecord.description ∘ mkRecord) = id := rfl
  rw [hcomp, List.map_id]

/-- The merged table of a full run has exactly the registry's labels, in
registry order, provided at least one batch ran. -/
lemma mergedLabels_raw (labels : List String) (hnd : labels.Nodup) :
    ∀ k, 1 ≤ k → mergedLabels (rawRecords labels k) = labels := by
  intro k hk
  cases k with
  | zero => omega
  | succ k =>
    unfold mergedLabels
    rw [rawRecords_desc_succ]
    rw [firstDedup_append _ _ (fun x hx => rawRecords_desc_mem labels k x hx)]
    exact firstDedup_eq_self labels hnd

/-- C1: for every registry with distinct labels, a successful
compare_benchmarks run over at least one batch, followed by
compare_modelsize, yields a printed latency table with exactly one latency
row (merged cell) per variant label and a size report with exactly one size
line per variant label, and the labels of both reports coincide with the
registry's labels (even as ordered lists, hence as sets). -/
theorem bench_and_size_one_record_per_label
    (g : Nat → ℚ) (ms : List (String × Model)) (batches bs ch h w : Nat)
    (recs : List TimerRecord)
    (hnd : (ms.map Prod.fst).Nodup) (hb : 1 ≤ batches)
    (hok : compare_benchmarks g ms batches bs ch h w = Except.ok recs) :
    mergedLabels recs = ms.map Prod.fst
    ∧ (∀ l ∈ ms.map Prod.fst, (mergedLabels recs).count l = 1)
    ∧ (compare_modelsize ms).map Prod.fst = ms.map Prod.fst
    ∧ (∀ l ∈ ms.map Prod.fst,
        ((compare_modelsize ms).map Prod.fst).count l = 1) := by
  have h1 : recs = rawRecords (ms.map Prod.fst) batches :=
    compare_benchmarks_ok g ms batches bs ch h w recs hok
  have h2 : mergedLabels recs = ms.map Prod.fst := by
    rw [h1]
    exact mergedLabels_raw _ hnd batches hb
  have h3 : (compare_modelsize ms).map Prod.fst = ms.map Prod.fst := by
    simp [compare_modelsize]
  refine ⟨h2, ?_, h3, ?_⟩
  · intro l hl
    rw [h2]
    exact List.count_eq_one_of_mem hnd hl
  · intro l hl
    rw [h3]
    exact List.count_eq_one_of_mem hnd hl

/-- C1 witness: the two-variant registry, one batch of 1x1x1x1 inputs. -/
theorem bench_and_size_one_record_per_label_witness :
    ((demoModels.map Prod.fst).Nodup ∧ (1 : Nat) ≤ 1
      ∧ compare_benchmarks g0 demoModels 1 1 1 1 1
          = Except.ok [mkRecord "a", mkRecord "b"])
    ∧ (mergedLabels [mkRecord "a", mkRecord "b"] = demoModels.map Prod.fst
      ∧ (∀ l ∈ demoModels.map Prod.fst,
          (mergedLabels [mkRecord "a", mkRecord "b"]).count l = 1)
      ∧ (compare_modelsize demoModels).map Prod.fst = demoModels.map Prod.fst
      ∧ (∀ l ∈ demoModels.map Prod.fst,
          ((compare_modelsize demoModels).map Prod.fst).count l = 1)) := by
  have hnd : (demoModels.map Prod.fst).Nodup := by
    simp [demoModels]
  have hok : compare_benchmarks g0 demoModels 1 1 1 1 1
      = Except.ok [mkRecord "a", mkRecord "b"] := rfl
  exact ⟨⟨hnd, le_refl 1, hok⟩,
    bench_and_size_one_record_per_label g0 demoModels 1 1 1 1 1
      [mkRecord "a", mkRecord "b"] hnd (le_refl 1) hok⟩

/-- C4: the seed is set exactly once and before anything else in
compare_benchmarks; the tensor timed for any variant at batch b is the
batch-b tensor genInput g bs ch h w b, a function only of the seeded
stream g and the batch parameters — so within one run every variant is
timed on the identical tensor at each batch index, and two invocations
with the same parameters (hence the same stream g fixed by
torch.manual_seed(0)) generate the same input sequence. -/
theorem bench_seed_once_inputs_shared
    (g : Nat → ℚ) (ms : List (String × Model)) (batches bs ch h w : Nat) :
    ((benchEvents ms batches).filter BenchEv.isSeed) = [BenchEv.seedSet 0]
    ∧ (benchEvents ms batches).head? = some (BenchEv.seedSet 0)
    ∧ (∀ b v t, (b, v, t) ∈ timedCalls g ms batches bs ch h w →
        t = genInput g bs ch h w b)
    ∧ (∀ b v t v2 t2, (b, v, t) ∈ timedCalls g ms batches bs ch h w →
        (b, v2, t2) ∈ timedCalls g ms batches bs ch h w → t = t2) := by
  have hmem : ∀ b v t, (b, v, t) ∈ timedCalls g ms batches bs ch h w →
      t = genInput g bs ch h w b := by
    intro b v t ht
    simp only [timedCalls, List.mem_flatten, List.mem_map] at ht
    obtain ⟨ll, ⟨b2, _, rfl⟩, hmem2⟩ := ht
    simp only [List.mem_map] at hmem2
    obtain ⟨p, _, heq⟩ := hmem2
    cases heq
    rfl
  refine ⟨?_, rfl, hmem, ?_⟩
  · unfold benchEvents
    rw [List.filter_cons]
    have hseed : BenchEv.isSeed (BenchEv.seedSet 0) = true := rfl
    rw [if_pos hseed]
    have htail : (((List.range batches).map fun b =>
        BenchEv.genBatch b :: ms.map fun p =>
          BenchEv.timeModel b p.1).flatten).filter BenchEv.isSeed = [] := by
      rw [List.filter_eq_nil_iff]
      intro ev hev
      simp only [List.mem_flatten, List.mem_map] at hev
      obtain ⟨ll, ⟨b, _, rfl⟩, hev2⟩ := hev
      simp only [List.mem_cons, List.mem_map] at hev2
      rcases hev2 with rfl | ⟨p, _, rfl⟩ <;> simp [BenchEv.isSeed]
    rw [htail]
  · intro b v t v2 t2 h1 h2
    rw [hmem b v t h1, hmem b v2 t2 h2]

/-- C4 witness: with the two-variant registry and one batch, both variants
are timed on the identical batch-0 tensor. -/
theorem bench_seed_once_inputs_shared_witness :
    ((0, "a", genInput g0 1 1 1 1 0) ∈ timedCalls g0 demoModels 1 1 1 1 1
      ∧ (0, "b", genInput g0 1 1 1 1 0) ∈ timedCalls g0 demoModels 1 1 1 1 1)
    ∧ genInput g0 1 1 1 1 0 = genInput g0 1 1 1 1 0 := by
  have h1 : (0, "a", genInput g0 1 1 1 1 0) ∈ timedCalls g0 demoModels 1 1 1 1 1 := by
    simp [timedCalls, demoModels]
  have h2 : (0, "b", genInput g0 1 1 1 1 0) ∈ timedCalls g0 demoModels 1 1 1 1 1 := by
    simp [timedCalls, demoModels]
  exact ⟨⟨h1, h2⟩,
    (bench_seed_once_inputs_shared g0 demoModels 1 1 1 1 1).2.2.2
      0 "a" _ "b" _ h1 h2⟩

/-- If every model accepts the input, the inner loop succeeds. -/
lemma benchLoop_ok_exists (x : Tensor) : ∀ (ms : List (String × Model))
    (acc : List TimerRecord),
    (∀ p ∈ ms, exceptOk (p.2.infer x) = true) →
    ∃ acc2, benchLoop ms x acc = Except.ok acc2 := by
  intro ms
  induction ms with
  | nil => intro acc _; exact ⟨acc, rfl⟩
  | cons p rest ih =>
    intro acc hall
    obtain ⟨name, m⟩ := p
    have h1 := hall _ (List.mem_cons_self _ _)
    cases hinf : m.infer x with
    | error e => rw [hinf] at h1; cases h1
    | ok y =>
      obtain ⟨acc2, h2⟩ :=
        ih (acc ++ [mkRecord name]) (fun q hq => hall q (List.mem_cons_of_mem _ hq))
      refine ⟨acc2, ?_⟩
      rw [benchLoop, hinf]
      exact h2

/-- The inner loop propagates the first failing variant's error. -/
lemma benchLoop_error (x : Tensor) (errMsg : String) :
    ∀ (pre : List (String × Model)) (vn : String) (m : Model)
    (post : List (String × Model)) (acc : List TimerRecord),
    (∀ p ∈ pre, exceptOk (p.2.infer x) = true) →
    m.infer x = Except.error errMsg →
    benchLoop (pre ++ (vn, m) :: post) x acc = Except.error errMsg := by
  intro pre
  induction pre with
  | nil =>
    intro vn m post acc _ hfail
    rw [List.nil_append, benchLoop, hfail]
  | cons q rest ih =>
    intro vn m post acc hall hfail
    obtain ⟨qn, qm⟩ := q
    have h1 := hall _ (List.mem_cons_self _ _)
    cases hinf : qm.infer x with
    | error e => rw [hinf] at h1; cases h1
    | ok y =>
      rw [List.cons_append, benchLoop, hinf]
      exact ih vn m post _ (fun p hp => hall p (List.mem_cons_of_mem _ hp)) hfail

/-- The outer loop propagates the error of the first failing batch. -/
lemma benchFrom_error (g : Nat → ℚ) (pre post : List (String × Model))
    (vn : String) (m : Model) (bs ch h w : Nat) (errMsg : String) (b : Nat)
    (hfail : m.infer (genInput g bs ch h w b) = Except.error errMsg) :
    ∀ (k b0 : Nat) (acc : List TimerRecord), b0 ≤ b → b < b0 + k →
    (∀ b2, b0 ≤ b2 → b2 < b → ∀ p ∈ pre ++ (vn, m) :: post,
        exceptOk (p.2.infer (genInput g bs ch h w b2)) = true) →
    (∀ p ∈ pre, exceptOk (p.2.infer (genInput g bs ch h w b)) = true) →
    benchFrom g (pre ++ (vn, m) :: post) bs ch h w b0 k acc
      = Except.error errMsg := by
  intro k
  induction k with
  | zero => intro b0 acc h1 h2 _ _; omega
  | succ k ih =>
    intro b0 acc hb0 hlt hprev hpre
    by_cases hbe : b0 = b
    · subst hbe
      rw [benchFrom, benchLoop_error _ errMsg pre vn m post acc hpre hfail]
    · have hok : ∀ p ∈ pre ++ (vn, m) :: post,
          exceptOk (p.2.infer (genInput g bs ch h w b0)) = true :=
        hprev b0 (le_refl _) (by omega)
      obtain ⟨acc2, h2⟩ := benchLoop_ok_exists _ _ acc hok
      rw [benchFrom, h2]
      exact ih (b0 + 1) acc2 (by omega) (by omega)
        (fun b2 hb2 hb2' => hprev b2 (by omega) hb2') hpre

/-- C8: if some variant's forward call fails at a batch (and everything
before it in iteration order succeeded), the exception propagates uncaught
and compare_benchmarks evaluates to that error: nothing is collected, so no
comparison table is printed (the table is only built from a successful
result) and no result exists for any later variant or batch. -/
theorem bench_error_aborts (g : Nat → ℚ) (pre post : List (String × Model))
    (vn : String) (m : Model) (batches bs ch h w b : Nat) (errMsg : String)
    (hb : b < batches)
    (hprev : ∀ b2 < b, ∀ p ∈ pre ++ (vn, m) :: post,
        exceptOk (p.2.infer (genInput g bs ch h w b2)) = true)
    (hpre : ∀ p ∈ pre, exceptOk (p.2.infer (genInput g bs ch h w b)) = true)
    (hfail : m.infer (genInput g bs ch h w b) = Except.error errMsg) :
    compare_benchmarks g (pre ++ (vn, m) :: post) batches bs ch h w
      = Except.error errMsg := by
  unfold compare_benchmarks
  exact benchFrom_error g pre post vn m bs ch h w errMsg b hfail batches 0 []
    (Nat.zero_le b) (by omega) (fun b2 _ h2 p hp => hprev b2 h2 p hp) hpre

/-- C8 witness: a registry with a succeeding variant followed by a failing
one; the whole comparison evaluates to the error. -/
theorem bench_error_aborts_witness :
    ((0 : Nat) < 1
      ∧ badModel.infer (genInput g0 1 1 1 1 0) = Except.error "boom")
    ∧ compare_benchmarks g0 ([("ok", okModel)] ++ ("bad", badModel) :: []) 1 1 1 1 1
        = Except.error "boom" := by
  refine ⟨⟨by omega, rfl⟩, ?_⟩
  refine bench_error_aborts g0 [("ok", okModel)] [] "bad" badModel 1 1 1 1 1 0 "boom"
    (by omega) (fun b2 hb2 => absurd hb2 (Nat.not_lt_zero b2)) ?_ rfl
  intro p hp
  simp only [List.mem_singleton] at hp
  subst hp
  rfl

/-- Pruning a tensor keeps its value count. -/
lemma pruneTensor_length (mk : Nat → Bool) (t : Tensor) :
    (pruneTensor mk t).values.length = t.values.length := by
  simp [pruneTensor, List.enum_length]

/-- Mapping a projection unchanged by pruning over the pruned parameter
list gives the same result as over the original parameters. -/
lemma prune_params_proj {α : Type} (proj : Tensor → α)
    (hp : ∀ mk t, proj (pruneTensor mk t) = proj t)
    (cw : Nat → Bool) (mask : Nat → Nat → Bool) :
    ∀ (l : List Tensor) (n : Nat),
    ((List.enumFrom n l).map fun q =>
        if cw q.1 then pruneTensor (mask q.1) q.2 else q.2).map proj
      = l.map proj := by
  intro l
  induction l with
  | nil => intro n; rfl
  | cons a t ih =>
    intro n
    simp only [List.enumFrom, List.map_cons]
    rw [ih (n + 1)]
    by_cases h : cw n
    · simp [h, hp]
    · simp [h]

/-- Pruning leaves the byte count of the model unchanged. -/
lemma prune_size_bytes (cw : Nat → Bool) (mask : Nat → Nat → Bool) (m : Model) :
    modelSizeBytes (pruneModelWeights cw mask m) = modelSizeBytes m := by
  unfold modelSizeBytes pruneModelWeights
  simp only [List.enum]
  rw [prune_params_proj (fun t => t.nelement * t.element_size)
    (fun mk t => rfl) cw mask m.params 0]

/-- C9: the built-in prune-then-remove pass (zeroing masked entries of
every Conv2d weight) preserves every parameter's shape, element count,
element byte size and value count, so the model's byte footprint is
unchanged and compare_modelsize reports exactly the control model's size
for the pruned variant. -/
theorem prune_preserves_size (cw : Nat → Bool) (mask : Nat → Nat → Bool)
    (m : Model) :
    ((pruneModelWeights cw mask m).params.map Tensor.shape
        = m.params.map Tensor.shape)
    ∧ ((pruneModelWeights cw mask m).params.map Tensor.nelement
        = m.params.map Tensor.nelement)
    ∧ ((pruneModelWeights cw mask m).params.map Tensor.element_size
        = m.params.map Tensor.element_size)
    ∧ ((pruneModelWeights cw mask m).params.map (fun t => t.values.length)
        = m.params.map (fun t => t.values.length))
    ∧ size_all_mb (pruneModelWeights cw mask m) = size_all_mb m
    ∧ compare_modelsize [("control", m), ("pruned", pruneModelWeights cw mask m)]
        = [("control", size_all_mb m), ("pruned", size_all_mb m)] := by
  have hsize : size_all_mb (pruneModelWeights cw mask m) = size_all_mb m := by
    unfold size_all_mb
    rw [prune_size_bytes]
  refine ⟨?_, ?_, ?_, ?_, hsize, ?_⟩
  · unfold pruneModelWeights
    simp only [List.enum]
    exact prune_params_proj Tensor.shape (fun mk t => rfl) cw mask m.params 0
  · unfold pruneModelWeights
    simp only [List.enum]
    exact prune_params_proj Tensor.nelement (fun mk t => rfl) cw mask m.params 0
  · unfold pruneModelWeights
    simp only [List.enum]
    exact prune_params_proj Tensor.element_size (fun mk t => rfl) cw mask m.params 0
  · unfold pruneModelWeights
    simp only [List.enum]
    exact prune_params_proj (fun t => t.values.length)
      (fun mk t => pruneTensor_length mk t) cw mask m.params 0
  · simp [compare_modelsize, hsize]

end DLMess
